import Mathlib

/-!
Verification of the document ingestion and retrieval pipeline of the
hotel-training RAG system (document_processor + rag_system packages).

Text is modelled as `List Char` (Python `str`), machine integers as `ℤ`/`ℕ`,
and floating point numbers as exact rationals `ℚ`.  Fallible or possibly
non-terminating code paths return `Option` (with explicit fuel where the
Python loop has no structural termination argument); `none` models a raised
exception or a non-terminating loop, never a value that the Python code
could return.
-/

/-- Characters treated as whitespace by Python `str.strip` / `\s` (ASCII range). -/
def pyIsSpace (c : Char) : Bool :=
  c = ' ' || c = '\t' || c = '\n' || c = '\r' || c = Char.ofNat 11 || c = Char.ofNat 12

/-- Python `str.lstrip()` on ASCII whitespace. -/
def pyLStrip (l : List Char) : List Char := l.dropWhile pyIsSpace

/-- Python `str.rstrip()` on ASCII whitespace. -/
def pyRStrip (l : List Char) : List Char := (l.reverse.dropWhile pyIsSpace).reverse

/-- Python `str.strip()` on ASCII whitespace. -/
def pyStrip (l : List Char) : List Char := pyRStrip (pyLStrip l)

/-- Removes the first occurrence of a character, as Python `str.replace(c, "", 1)`. -/
def removeFirst (t : Char) : List Char → List Char
  | [] => []
  | c :: rest => if c = t then rest else c :: removeFirst t rest

/-- ASCII lower-casing of one character, the ASCII core of Python `str.lower`. -/
def lowerChar (c : Char) : Char :=
  if 'A' ≤ c ∧ c ≤ 'Z' then Char.ofNat (c.toNat + 32) else c

/-- ASCII lower-casing of a string, the ASCII core of Python `str.lower`. -/
def lowerAscii (l : List Char) : List Char := l.map lowerChar

/-- The numeric-string test of `VectorStore._parse_metadata`
(`value.replace('.', '', 1).replace('-', '', 1).isdigit()`), with `isdigit`
modelled on ASCII digits. -/
def pyDigitTest (v : List Char) : Bool :=
  let w := removeFirst '-' (removeFirst '.' v)
  !w.isEmpty && w.all Char.isDigit

/-- Decimal digit character for a value below 10. -/
def digitChar (d : ℕ) : Char := Char.ofNat (48 + d)

/-- Decimal digits of a natural number, most significant first (Python `str(n)` for `n ≥ 0`). -/
def natDigits (n : ℕ) : List Char :=
  if _h : n < 10 then [digitChar n]
  else natDigits (n / 10) ++ [digitChar (n % 10)]
termination_by n
decreasing_by
  exact Nat.div_lt_self (by omega) (by omega)

/-- Python `str(z)` for an integer `z`. -/
def intStr (z : ℤ) : List Char :=
  if z < 0 then '-' :: natDigits (-z).toNat else natDigits z.toNat

/-- Numeric value of a list of decimal digit characters (what Python `int` computes
on a pure digit string). -/
def natVal (l : List Char) : ℕ := l.foldl (fun a c => a * 10 + (c.toNat - 48)) 0

/-- Python `int(value)` restricted to the strings that can reach it in
`VectorStore._parse_metadata`: digits with at most one minus sign.  The minus
sign must be leading, otherwise `int` raises `ValueError` (`none`). -/
def pyIntParse (v : List Char) : Option ℤ :=
  match v with
  | [] => none
  | c :: rest =>
      if c = '-' then
        if !rest.isEmpty && rest.all Char.isDigit then some (-(natVal rest : ℤ)) else none
      else if (c :: rest).all Char.isDigit then some ((natVal (c :: rest) : ℤ))
      else none

/-- Python `float(value)` on a sign-free plain decimal string (must contain a dot
with digits around it).  The value is the exact rational the literal denotes;
Python rounds it to the nearest binary double, a distinction no theorem in this
file depends on. -/
def pyFloatParseNonneg (w : List Char) : Option ℚ :=
  let ip := w.takeWhile (fun c => c ≠ '.')
  let rest := w.dropWhile (fun c => c ≠ '.')
  match rest with
  | '.' :: fp =>
      if ip.all Char.isDigit && fp.all Char.isDigit && !(ip.isEmpty && fp.isEmpty) then
        some ((natVal ip : ℚ) + (natVal fp : ℚ) / (10 : ℚ) ^ fp.length)
      else none
  | _ => none

/-- Python `float(value)` restricted to the strings that can reach it in
`VectorStore._parse_metadata` (see `pyFloatParseNonneg`). -/
def pyFloatParse (v : List Char) : Option ℚ :=
  match v with
  | [] => pyFloatParseNonneg []
  | c :: rest =>
      if c = '-' then (pyFloatParseNonneg rest).map (fun q => -q)
      else pyFloatParseNonneg (c :: rest)

/-- A Python value that can occur as a metadata entry: the primitive types
special-cased by `VectorStore.add_document` (`str`, `int`, `float`, `bool`)
plus the JSON-encodable composites this repository produces (`None`, lists,
string-keyed dicts).  Floats carry the exact rational the program text denotes. -/
inductive PVal where
  | vstr (s : List Char)
  | vint (z : ℤ)
  | vfloat (q : ℚ)
  | vbool (b : Bool)
  | vnone
  | vlist (items : List PVal)
  | vdict (pairs : List (List Char × PVal))

/-- Left brace character, written by code point to keep it out of literals. -/
def lbrace : Char := Char.ofNat 123

/-- Right brace character, written by code point to keep it out of literals. -/
def rbrace : Char := Char.ofNat 125

/-- Lower-case hexadecimal digit character. -/
def hexDigit (d : ℕ) : Char :=
  if d < 10 then digitChar d else Char.ofNat (97 + d - 10)

/-- Four lower-case hex digits, as in a JSON `\uXXXX` escape. -/
def hex4 (n : ℕ) : List Char :=
  [hexDigit (n / 4096 % 16), hexDigit (n / 256 % 16), hexDigit (n / 16 % 16), hexDigit (n % 16)]

/-- Escape of one character inside a JSON string as produced by Python
`json.dumps` with its default `ensure_ascii=True`. -/
def jsonEscapeChar (c : Char) : List Char :=
  if c = '"' then ['\\', '"']
  else if c = '\\' then ['\\', '\\']
  else if c = '\n' then ['\\', 'n']
  else if c = '\t' then ['\\', 't']
  else if c = '\r' then ['\\', 'r']
  else if c = Char.ofNat 8 then ['\\', 'b']
  else if c = Char.ofNat 12 then ['\\', 'f']
  else if c.toNat < 32 || c.toNat > 126 then
    if c.toNat ≤ 65535 then '\\' :: 'u' :: hex4 c.toNat
    else
      let n := c.toNat - 65536
      ('\\' :: 'u' :: hex4 (55296 + n / 1024)) ++ ('\\' :: 'u' :: hex4 (56320 + n % 1024))
  else [c]

/-- JSON string literal (with quotes) for a Python string, as `json.dumps` writes it. -/
def jsonQuote (s : List Char) : List Char :=
  '"' :: s.flatMap jsonEscapeChar ++ ['"']

/-- Python `str(float)` is the shortest decimal that round-trips the binary
double; floats here are exact rationals, so this prints the exact decimal
expansion capped at 17 fractional digits.  No theorem in this file depends on
this case of the encoder. -/
def fracDigits : ℕ → ℚ → List Char
  | 0, _ => []
  | fuel + 1, r =>
      let d := ⌊r * 10⌋.toNat
      digitChar d :: (if r * 10 - d = 0 then [] else fracDigits fuel (r * 10 - d))

/-- Decimal rendering of a nonnegative rational à la Python `str(float)` (see `fracDigits`). -/
def floatReprNonneg (q : ℚ) : List Char :=
  natDigits ⌊q⌋.toNat ++ '.' :: fracDigits 17 (q - ⌊q⌋)

/-- Decimal rendering of a rational à la Python `str(float)` (see `fracDigits`). -/
def floatRepr (q : ℚ) : List Char :=
  if q < 0 then '-' :: floatReprNonneg (-q) else floatReprNonneg q

mutual
/-- Python `json.dumps(value)` (default options) over the `PVal` universe. -/
def jsonDumps : PVal → List Char
  | PVal.vstr s => jsonQuote s
  | PVal.vint z => intStr z
  | PVal.vfloat q => floatRepr q
  | PVal.vbool b => if b then "true".data else "false".data
  | PVal.vnone => "null".data
  | PVal.vlist items => '[' :: jsonDumpsList items ++ [']']
  | PVal.vdict pairs => lbrace :: jsonDumpsPairs pairs ++ [rbrace]

/-- Comma-joined `json.dumps` renderings of list items. -/
def jsonDumpsList : List PVal → List Char
  | [] => []
  | [x] => jsonDumps x
  | x :: y :: rest => jsonDumps x ++ ", ".data ++ jsonDumpsList (y :: rest)

/-- Comma-joined `json.dumps` renderings of dict entries. -/
def jsonDumpsPairs : List (List Char × PVal) → List Char
  | [] => []
  | [(k, v)] => jsonQuote k ++ ": ".data ++ jsonDumps v
  | (k, v) :: p :: rest =>
      jsonQuote k ++ ": ".data ++ jsonDumps v ++ ", ".data ++ jsonDumpsPairs (p :: rest)
end

/-- JSON insignificant whitespace skipping. -/
def jsonSkipWS (l : List Char) : List Char :=
  l.dropWhile (fun c => c = ' ' || c = '\t' || c = '\n' || c = '\r')

/-- Value of one hexadecimal digit character, if any. -/
def hexVal (c : Char) : Option ℕ :=
  if '0' ≤ c ∧ c ≤ '9' then some (c.toNat - 48)
  else if 'a' ≤ c ∧ c ≤ 'f' then some (c.toNat - 97 + 10)
  else if 'A' ≤ c ∧ c ≤ 'F' then some (c.toNat - 65 + 10)
  else none

/-- Reads four hex digits of a `\uXXXX` escape. -/
def parseHex4 : List Char → Option (ℕ × List Char)
  | a :: b :: c :: d :: rest => do
      let va ← hexVal a
      let vb ← hexVal b
      let vc ← hexVal c
      let vd ← hexVal d
      some (va * 4096 + vb * 256 + vc * 16 + vd, rest)
  | _ => none

/-- Decoding of one escape sequence after a backslash inside a JSON string
literal, returning the decoded character and the remaining input.  Surrogate
pairs are combined as `json.loads` does; a lone surrogate (which Python would
keep as a lone surrogate code unit, a value `Char` cannot hold) is mapped to
`none`. -/
def jsonUnescape : List Char → Option (Char × List Char)
  | [] => none
  | e :: rest2 =>
      if e = '"' ∨ e = '\\' ∨ e = '/' then some (e, rest2)
      else if e = 'n' then some ('\n', rest2)
      else if e = 't' then some ('\t', rest2)
      else if e = 'r' then some ('\r', rest2)
      else if e = 'b' then some (Char.ofNat 8, rest2)
      else if e = 'f' then some (Char.ofNat 12, rest2)
      else if e = 'u' then
        match parseHex4 rest2 with
        | none => none
        | some (n, rest3) =>
            if 55296 ≤ n ∧ n ≤ 56319 then
              match rest3 with
              | '\\' :: 'u' :: rest4 =>
                  match parseHex4 rest4 with
                  | some (m, rest5) =>
                      if 56320 ≤ m ∧ m ≤ 57343 then
                        some (Char.ofNat (65536 + (n - 55296) * 1024 + (m - 56320)), rest5)
                      else none
                  | none => none
              | _ => none
            else if 56320 ≤ n ∧ n ≤ 57343 then none
            else some (Char.ofNat n, rest3)
      else none

/-- Body of a JSON string after the opening quote, returning the decoded
characters and the input after the closing quote (escapes via
`jsonUnescape`). -/
def jsonParseStringBody : ℕ → List Char → Option (List Char × List Char)
  | 0, _ => none
  | _, [] => none
  | fuel + 1, c :: rest =>
      if c = '"' then some ([], rest)
      else if c = '\\' then
        match jsonUnescape rest with
        | none => none
        | some (ch, rest2) =>
            (jsonParseStringBody fuel rest2).map (fun p => (ch :: p.1, p.2))
      else if c.toNat < 32 then none
      else (jsonParseStringBody fuel rest).map (fun p => (c :: p.1, p.2))

/-- Value and remaining input after the optional exponent part of a JSON
number; with an exponent the value is a float, without it the carried integer
or float value stands. -/
def jsonParseExpDigits (ipv : ℤ) (fracv : Option ℚ) (eneg : Bool) (l5 : List Char) :
    Option (PVal × List Char) :=
  let ed := l5.takeWhile Char.isDigit
  if ed.isEmpty then none
  else
    let e : ℤ := (if eneg then -1 else 1) * (natVal ed : ℤ)
    some (PVal.vfloat (((ipv : ℚ) + (match fracv with | some f => f | none => 0))
        * (10 : ℚ) ^ e),
      l5.dropWhile Char.isDigit)

/-- Optional exponent sign of a JSON number. -/
def jsonParseExpTail (ipv : ℤ) (fracv : Option ℚ) : List Char → Option (PVal × List Char)
  | '-' :: rest => jsonParseExpDigits ipv fracv true rest
  | '+' :: rest => jsonParseExpDigits ipv fracv false rest
  | l4 => jsonParseExpDigits ipv fracv false l4

/-- Rest of a JSON number after its integer (and optional fraction) part:
an exponent makes it a float, otherwise a fraction made it a float and a bare
integer part stays an integer, as in `json.loads`. -/
def jsonParseNumTail (ipv : ℤ) (fracv : Option ℚ) : List Char → Option (PVal × List Char)
  | 'e' :: rest => jsonParseExpTail ipv fracv rest
  | 'E' :: rest => jsonParseExpTail ipv fracv rest
  | l3 =>
      match fracv with
      | some f => some (PVal.vfloat ((ipv : ℚ) + f), l3)
      | none => some (PVal.vint ipv, l3)

/-- Unsigned JSON number: integer part without leading zeros, then optional
fraction and exponent. -/
def jsonParseNumberCore (l1 : List Char) : Option (PVal × List Char) :=
  match l1 with
  | [] => none
  | c :: _ =>
    if ¬ c.isDigit then none
    else if c = '0' ∧ ((l1.drop 1).head?.any Char.isDigit = true) then none
    else
      let ip := l1.takeWhile Char.isDigit
      let l2 := l1.dropWhile Char.isDigit
      match l2 with
      | '.' :: rest2 =>
          let fp := rest2.takeWhile Char.isDigit
          if fp.isEmpty then none
          else jsonParseNumTail (natVal ip : ℤ)
            (some ((natVal fp : ℚ) / (10 : ℚ) ^ fp.length)) (rest2.dropWhile Char.isDigit)
      | _ => jsonParseNumTail (natVal ip : ℤ) none l2

/-- Negation of a parsed numeric value (the leading minus sign of a JSON
number). -/
def pvalNegNum : PVal → PVal
  | PVal.vint z => PVal.vint (-z)
  | PVal.vfloat q => PVal.vfloat (-q)
  | v => v

/-- JSON number parsing (sign, integer part without leading zeros, optional
fraction and exponent); integers become `vint`, anything with a fraction or
exponent becomes `vfloat`, as in `json.loads`. -/
def jsonParseNumber (l : List Char) : Option (PVal × List Char) :=
  match l with
  | '-' :: rest => (jsonParseNumberCore rest).map (fun p => (pvalNegNum p.1, p.2))
  | _ => jsonParseNumberCore l

mutual
/-- One JSON value, as accepted by `json.loads`, returning the remaining input. -/
def jsonParseValue : ℕ → List Char → Option (PVal × List Char)
  | 0, _ => none
  | fuel + 1, l =>
      match jsonSkipWS l with
      | [] => none
      | c :: rest =>
          if c = '"' then
            (jsonParseStringBody (rest.length + 1) rest).map (fun p => (PVal.vstr p.1, p.2))
          else if c = '[' then
            match jsonSkipWS rest with
            | ']' :: rest2 => some (PVal.vlist [], rest2)
            | _ => (jsonParseItems fuel rest).map (fun p => (PVal.vlist p.1, p.2))
          else if c = lbrace then
            match jsonSkipWS rest with
            | d :: rest2 =>
                if d = rbrace then some (PVal.vdict [], rest2)
                else (jsonParsePairs fuel rest).map (fun p => (PVal.vdict p.1, p.2))
            | [] => none
          else if c = 't' then
            match rest with
            | 'r' :: 'u' :: 'e' :: rest2 => some (PVal.vbool true, rest2)
            | _ => none
          else if c = 'f' then
            match rest with
            | 'a' :: 'l' :: 's' :: 'e' :: rest2 => some (PVal.vbool false, rest2)
            | _ => none
          else if c = 'n' then
            match rest with
            | 'u' :: 'l' :: 'l' :: rest2 => some (PVal.vnone, rest2)
            | _ => none
          else jsonParseNumber (c :: rest)

/-- Comma-separated JSON array items up to the closing bracket. -/
def jsonParseItems : ℕ → List Char → Option (List PVal × List Char)
  | 0, _ => none
  | fuel + 1, l => do
      let (v, rest) ← jsonParseValue (fuel + 1) l
      match jsonSkipWS rest with
      | ']' :: rest2 => some ([v], rest2)
      | ',' :: rest2 => (jsonParseItems fuel rest2).map (fun p => (v :: p.1, p.2))
      | _ => none

/-- Comma-separated JSON object entries up to the closing brace. -/
def jsonParsePairs : ℕ → List Char → Option (List (List Char × PVal) × List Char)
  | 0, _ => none
  | fuel + 1, l =>
      match jsonSkipWS l with
      | '"' :: rest => do
          let (k, rest2) ← jsonParseStringBody (rest.length + 1) rest
          match jsonSkipWS rest2 with
          | ':' :: rest3 => do
              let (v, rest4) ← jsonParseValue (fuel + 1) rest3
              match jsonSkipWS rest4 with
              | d :: rest5 =>
                  if d = rbrace then some ([(k, v)], rest5)
                  else if d = ',' then
                    (jsonParsePairs fuel rest5).map (fun p => ((k, v) :: p.1, p.2))
                  else none
              | [] => none
          | _ => none
      | _ => none
end

/-- Python `json.loads(value)`: one JSON value followed only by whitespace. -/
def jsonLoads (v : List Char) : Option PVal :=
  match jsonParseValue (v.length + 1) v with
  | some (j, rest) => if jsonSkipWS rest = [] then some j else none
  | none => none

/-- The per-value decoding performed by `VectorStore._parse_metadata`: strings
starting with a bracket are tried as JSON, then the numeric-string test picks
`float`/`int`, then case-insensitive `true`/`false` become booleans, and
everything else (including any parse failure) stays a string. -/
def parseMetadataValue (v : List Char) : PVal :=
  if v.head? = some '[' ∨ v.head? = some lbrace then
    match jsonLoads v with
    | some j => j
    | none => PVal.vstr v
  else if pyDigitTest v then
    if v.contains '.' then
      match pyFloatParse v with
      | some q => PVal.vfloat q
      | none => PVal.vstr v
    else
      match pyIntParse v with
      | some z => PVal.vint z
      | none => PVal.vstr v
  else if lowerAscii v = "true".data ∨ lowerAscii v = "false".data then
    PVal.vbool (lowerAscii v = "true".data)
  else PVal.vstr v

theorem digitChar_isDigit (d : ℕ) (h : d < 10) : (digitChar d).isDigit = true := by
  interval_cases d <;> decide

theorem natDigits_ne_nil (n : ℕ) : natDigits n ≠ [] := by
  rw [natDigits]
  split
  · simp
  · simp

theorem mem_natDigits_isDigit (n : ℕ) : ∀ c ∈ natDigits n, c.isDigit = true := by
  induction n using Nat.strong_induction_on with
  | _ n ih =>
    rw [natDigits]
    split
    · intro c hc
      rw [List.mem_singleton] at hc
      subst hc
      exact digitChar_isDigit n (by omega)
    · intro c hc
      rw [List.mem_append] at hc
      rcases hc with hc | hc
      · exact ih (n / 10) (Nat.div_lt_self (by omega) (by omega)) c hc
      · rw [List.mem_singleton] at hc
        subst hc
        exact digitChar_isDigit _ (Nat.mod_lt _ (by omega))

theorem natDigits_cons (n : ℕ) : ∃ c t, natDigits n = c :: t ∧ c.isDigit = true := by
  cases hnd : natDigits n with
  | nil => exact absurd hnd (natDigits_ne_nil n)
  | cons c t => exact ⟨c, t, rfl, mem_natDigits_isDigit n c (hnd ▸ List.mem_cons_self c t)⟩


theorem jsonSkipWS_cons {c : Char} (l : List Char)
    (h : c ≠ ' ' ∧ c ≠ '\t' ∧ c ≠ '\n' ∧ c ≠ '\r') : jsonSkipWS (c :: l) = c :: l := by
  rw [jsonSkipWS, List.dropWhile_cons,
    if_neg (by simp only [Bool.or_eq_true, decide_eq_true_eq]; tauto)]

theorem isDigit_ne_chars2 {c : Char} (h : c.isDigit = true) :
    c ≠ ' ' ∧ c ≠ '\t' ∧ c ≠ '\n' ∧ c ≠ '\r' ∧ c ≠ ']' ∧ c ≠ rbrace ∧ c ≠ '"' ∧
      c ≠ 't' ∧ c ≠ 'f' ∧ c ≠ 'n' := by
  simp only [Char.isDigit] at h
  refine ⟨?_, ?_, ?_, ?_, ?_, ?_, ?_, ?_, ?_, ?_⟩ <;> · rintro rfl; revert h; decide

theorem jsonDumps_head (v : PVal) : ∃ c t, jsonDumps v = c :: t ∧
    (c = '"' ∨ c = '-' ∨ c.isDigit = true ∨ c = 't' ∨ c = 'f' ∨ c = 'n' ∨
      c = '[' ∨ c = lbrace) := by
  cases v with
  | vstr s => exact ⟨'"', _, rfl, Or.inl rfl⟩
  | vint z =>
    rw [jsonDumps, intStr]
    split_ifs
    · exact ⟨'-', _, rfl, Or.inr (Or.inl rfl)⟩
    · obtain ⟨c, t, hct, hcd⟩ := natDigits_cons z.toNat
      exact ⟨c, t, hct, Or.inr (Or.inr (Or.inl hcd))⟩
  | vfloat q =>
    rw [jsonDumps, floatRepr]
    split_ifs with h
    · exact ⟨'-', _, rfl, Or.inr (Or.inl rfl)⟩
    · rw [floatReprNonneg]
      obtain ⟨c, t, hct, hcd⟩ := natDigits_cons ⌊q⌋.toNat
      rw [hct, List.cons_append]
      exact ⟨c, _, rfl, Or.inr (Or.inr (Or.inl hcd))⟩
  | vbool b =>
    cases b with
    | true => exact ⟨'t', _, rfl, by tauto⟩
    | false => exact ⟨'f', _, rfl, by tauto⟩
  | vnone => exact ⟨'n', _, rfl, by tauto⟩
  | vlist items => exact ⟨'[', _, rfl, by tauto⟩
  | vdict pairs => exact ⟨lbrace, _, rfl, by tauto⟩

theorem jsonDumps_head_facts (v : PVal) :
    ∃ c t, jsonDumps v = c :: t ∧
      (c ≠ ' ' ∧ c ≠ '\t' ∧ c ≠ '\n' ∧ c ≠ '\r') ∧ c ≠ ']' ∧ c ≠ rbrace := by
  obtain ⟨c, t, hct, hc⟩ := jsonDumps_head v
  refine ⟨c, t, hct, ?_⟩
  rcases hc with rfl | rfl | hd | rfl | rfl | rfl | rfl | rfl
  · exact ⟨⟨by decide, by decide, by decide, by decide⟩, by decide, by decide⟩
  · exact ⟨⟨by decide, by decide, by decide, by decide⟩, by decide, by decide⟩
  · obtain ⟨h1, h2, h3, h4, h5, h6, -⟩ := isDigit_ne_chars2 hd
    exact ⟨⟨h1, h2, h3, h4⟩, h5, h6⟩
  · exact ⟨⟨by decide, by decide, by decide, by decide⟩, by decide, by decide⟩
  · exact ⟨⟨by decide, by decide, by decide, by decide⟩, by decide, by decide⟩
  · exact ⟨⟨by decide, by decide, by decide, by decide⟩, by decide, by decide⟩
  · exact ⟨⟨by decide, by decide, by decide, by decide⟩, by decide, by decide⟩
  · exact ⟨⟨by decide, by decide, by decide, by decide⟩, by decide, by decide⟩

theorem jsonSkipWS_dumps (v : PVal) (rest : List Char) :
    jsonSkipWS (jsonDumps v ++ rest) = jsonDumps v ++ rest := by
  obtain ⟨c, t, hct, hws, -, -⟩ := jsonDumps_head_facts v
  rw [hct, List.cons_append, jsonSkipWS_cons _ hws]

/-- Dot product of `EmbeddingGenerator.compute_similarity`
(`sum(a * b for a, b in zip(embedding1, embedding2))`). -/
def dotProduct (xs ys : List ℚ) : ℚ := (List.zipWith (fun a b => a * b) xs ys).sum

/-- Sum of squares appearing in the magnitude computation of
`EmbeddingGenerator.compute_similarity` (`sum(a * a for a in embedding)`). -/
def sumSquares (xs : List ℚ) : ℚ := (xs.map (fun a => a * a)).sum

/-- Vector magnitude `sum(a * a for a in v) ** 0.5` over exact reals. -/
noncomputable def magnitude (xs : List ℚ) : ℝ := Real.sqrt ((sumSquares xs : ℚ) : ℝ)

/-- Model of `EmbeddingGenerator.compute_similarity`: raises `ValueError` on a
dimension mismatch, returns `0.0` when either magnitude is zero, and otherwise
returns the cosine similarity.  Exact real arithmetic stands in for floating
point, hence the noncomputable square root. -/
noncomputable def compute_similarity (e1 e2 : List ℚ) : Except (List Char) ℝ :=
  if e1.length ≠ e2.length then
    Except.error "Embeddings must have the same dimension".data
  else if magnitude e1 = 0 ∨ magnitude e2 = 0 then Except.ok 0
  else Except.ok (((dotProduct e1 e2 : ℚ) : ℝ) / (magnitude e1 * magnitude e2))

theorem sumSquares_nonneg (xs : List ℚ) : 0 ≤ sumSquares xs := by
  refine List.sum_nonneg ?_
  intro x hx
  rw [List.mem_map] at hx
  obtain ⟨a, -, rfl⟩ := hx
  exact mul_self_nonneg a

/-- Cauchy-Schwarz inequality for the truncating zip-product of two rational lists. -/
theorem dotProduct_sq_le (xs : List ℚ) : ∀ ys : List ℚ,
    (dotProduct xs ys) ^ 2 ≤ sumSquares xs * sumSquares ys := by
  induction xs with
  | nil =>
    intro ys
    simp [dotProduct, sumSquares]
  | cons a xs ih =>
    intro ys
    cases ys with
    | nil =>
      simp [dotProduct, sumSquares]
    | cons b ys =>
      have hX := sumSquares_nonneg xs
      have hY := sumSquares_nonneg ys
      have hd := ih ys
      have hexp : dotProduct (a :: xs) (b :: ys) = a * b + dotProduct xs ys := by
        simp [dotProduct]
      have hsx : sumSquares (a :: xs) = a * a + sumSquares xs := by
        simp [sumSquares]
      have hsy : sumSquares (b :: ys) = b * b + sumSquares ys := by
        simp [sumSquares]
      rw [hexp, hsx, hsy]
      rcases eq_or_lt_of_le hY with hY0 | hYpos
      · have hd0 : dotProduct xs ys = 0 := by
          nlinarith [sq_nonneg (dotProduct xs ys)]
        rw [← hY0, hd0]
        nlinarith [mul_nonneg hX (mul_self_nonneg b)]
      · nlinarith [sq_nonneg (a * sumSquares ys - b * dotProduct xs ys),
          mul_nonneg (sub_nonneg.2 hd) (add_nonneg (mul_self_nonneg b) hY), hYpos]

theorem magnitude_nonneg (xs : List ℚ) : 0 ≤ magnitude xs := Real.sqrt_nonneg _

theorem magnitude_eq_zero_iff (xs : List ℚ) : magnitude xs = 0 ↔ sumSquares xs = 0 := by
  rw [magnitude, Real.sqrt_eq_zero (by exact_mod_cast sumSquares_nonneg xs)]
  exact_mod_cast Iff.rfl

/-- C7: `compute_similarity` raises on mismatched lengths, returns 0 when either
vector has zero magnitude, otherwise returns the cosine similarity
`dot / (|e1| * |e2|)`, and every successfully returned value lies in `[-1, 1]`. -/
theorem compute_similarity_spec (e1 e2 : List ℚ) :
    (e1.length ≠ e2.length →
      compute_similarity e1 e2 = Except.error "Embeddings must have the same dimension".data) ∧
    (e1.length = e2.length → magnitude e1 = 0 ∨ magnitude e2 = 0 →
      compute_similarity e1 e2 = Except.ok 0) ∧
    (e1.length = e2.length → magnitude e1 ≠ 0 → magnitude e2 ≠ 0 →
      compute_similarity e1 e2 =
        Except.ok (((dotProduct e1 e2 : ℚ) : ℝ) / (magnitude e1 * magnitude e2))) ∧
    (∀ r : ℝ, compute_similarity e1 e2 = Except.ok r → -1 ≤ r ∧ r ≤ 1) := by
  refine ⟨fun hne => by rw [compute_similarity, if_pos hne], ?_, ?_, ?_⟩
  · intro hl hz
    rw [compute_similarity, if_neg (by simp [hl]), if_pos hz]
  · intro hl h1 h2
    rw [compute_similarity, if_neg (by simp [hl]), if_neg (by tauto)]
  · intro r hr
    rw [compute_similarity] at hr
    by_cases hne : e1.length ≠ e2.length
    · rw [if_pos hne] at hr
      exact absurd hr (by simp)
    · rw [if_neg hne] at hr
      by_cases hz : magnitude e1 = 0 ∨ magnitude e2 = 0
      · rw [if_pos hz] at hr
        have : r = 0 := by injection hr with h; exact h.symm
        rw [this]
        constructor <;> norm_num
      · rw [if_neg hz] at hr
        push_neg at hz
        have h1 : 0 < magnitude e1 :=
          lt_of_le_of_ne (magnitude_nonneg e1) (Ne.symm hz.1)
        have h2 : 0 < magnitude e2 :=
          lt_of_le_of_ne (magnitude_nonneg e2) (Ne.symm hz.2)
        have hval : r = ((dotProduct e1 e2 : ℚ) : ℝ) / (magnitude e1 * magnitude e2) := by
          injection hr with h
          exact h.symm
        have hcs : ((dotProduct e1 e2 : ℚ) : ℝ) ^ 2 ≤
            ((sumSquares e1 : ℚ) : ℝ) * ((sumSquares e2 : ℚ) : ℝ) := by
          exact_mod_cast dotProduct_sq_le e1 e2
        have hmm : magnitude e1 * magnitude e2 =
            Real.sqrt (((sumSquares e1 : ℚ) : ℝ) * ((sumSquares e2 : ℚ) : ℝ)) := by
          rw [magnitude, magnitude,
            ← Real.sqrt_mul (by exact_mod_cast sumSquares_nonneg e1)]
        have habs : |((dotProduct e1 e2 : ℚ) : ℝ)| ≤ magnitude e1 * magnitude e2 := by
          rw [hmm, ← Real.sqrt_sq_eq_abs]
          exact Real.sqrt_le_sqrt hcs
        have hpos : 0 < magnitude e1 * magnitude e2 := mul_pos h1 h2
        have : |r| ≤ 1 := by
          rw [hval, abs_div, abs_of_pos hpos, div_le_one hpos]
          exact habs
        exact abs_le.1 this

theorem magnitude_single_one : magnitude [(1 : ℚ)] = 1 := by
  have h : sumSquares [(1 : ℚ)] = 1 := by simp [sumSquares]
  rw [magnitude, h]
  simp [Real.sqrt_one]

/-- Witness for C7 at concrete inputs: a length mismatch errors, a zero vector
yields similarity 0, and the similarity of `[1]` with itself is `1 ∈ [-1, 1]`. -/
theorem compute_similarity_spec_witness :
    compute_similarity [(1 : ℚ)] [(0 : ℚ), 0] =
        Except.error "Embeddings must have the same dimension".data ∧
    compute_similarity [(0 : ℚ)] [(5 : ℚ)] = Except.ok 0 ∧
    (-1 ≤ (1 : ℝ) ∧ (1 : ℝ) ≤ 1) := by
  have hone : compute_similarity [(1 : ℚ)] [(1 : ℚ)] = Except.ok 1 := by
    have h3 := (compute_similarity_spec [(1 : ℚ)] [(1 : ℚ)]).2.2.1 rfl
      (by rw [magnitude_single_one]; norm_num) (by rw [magnitude_single_one]; norm_num)
    rw [h3, magnitude_single_one]
    have hd : dotProduct [(1 : ℚ)] [(1 : ℚ)] = 1 := by simp [dotProduct]
    rw [hd]
    norm_num
  refine ⟨(compute_similarity_spec _ _).1 (by decide), ?_, ?_⟩
  · refine (compute_similarity_spec _ _).2.1 rfl (Or.inl ?_)
    rw [magnitude_eq_zero_iff]
    simp [sumSquares]
  · exact (compute_similarity_spec [(1 : ℚ)] [(1 : ℚ)]).2.2.2 1 hone

/-- One formatted result of `VectorStore.search_similar`. -/
structure SearchRec where
  id : List Char
  content : List Char
  metadata : List (List Char × PVal)
  similarity_score : ℚ
  distance : ℚ

/-- The per-query lists returned by `collection.query` (the `[0]`-indexed inner
lists of the ChromaDB response); Chroma returns at most `n_results` aligned
entries, which the theorems take as a hypothesis. -/
structure ChromaQueryResult where
  documents : List (List Char)
  metadatas : List (List (List Char × List Char))
  distances : List ℚ
  ids : List (List Char)

/-- The whole-dictionary decoding of `VectorStore._parse_metadata`. -/
def parse_metadata (m : List (List Char × List Char)) : List (List Char × PVal) :=
  m.map (fun kv => (kv.1, parseMetadataValue kv.2))

/-- Python `zip` over four lists (truncating to the shortest). -/
def zip4 {α β γ δ : Type} : List α → List β → List γ → List δ → List (α × β × γ × δ)
  | a :: as, b :: bs, c :: cs, d :: ds => (a, b, c, d) :: zip4 as bs cs ds
  | _, _, _, _ => []

/-- The filter-and-format loop of `VectorStore.search_similar`: similarity is
`1 / (1 + distance)` and rows below the threshold are dropped. -/
def searchFormatted (raw : ChromaQueryResult) (threshold : ℚ) : List SearchRec :=
  (zip4 raw.documents raw.metadatas raw.distances raw.ids).filterMap
    (fun r =>
      let score : ℚ := 1 / (1 + r.2.2.1)
      if threshold ≤ score then
        some ⟨r.2.2.2, r.1, parse_metadata r.2.1, score, r.2.2.1⟩
      else none)

/-- The ordering used to model the stable Python
`list.sort(key=similarity_score, reverse=True)`: descending score with the
original position as tie breaker, applied to the enumerated list. -/
def searchOrder (x y : ℕ × SearchRec) : Prop :=
  y.2.similarity_score < x.2.similarity_score ∨
    (x.2.similarity_score = y.2.similarity_score ∧ x.1 ≤ y.1)

instance : DecidableRel searchOrder := by
  intro x y
  unfold searchOrder
  infer_instance

/-- The sorted, enumerated results of `VectorStore.search_similar`. -/
def searchRank (raw : ChromaQueryResult) (threshold : ℚ) : List (ℕ × SearchRec) :=
  List.insertionSort searchOrder (searchFormatted raw threshold).enum

/-- Model of `VectorStore.search_similar` after the `collection.query` call
(whose response is the `raw` argument, obtained with `n_results = top_k`).
A distance of `-1.0` would make `1.0 / (1.0 + distance)` raise
`ZeroDivisionError`, which the enclosing `except` turns into `[]`. -/
def search_similar (raw : ChromaQueryResult) (threshold : ℚ) : List SearchRec :=
  if (zip4 raw.documents raw.metadatas raw.distances raw.ids).any
      (fun r => r.2.2.1 = -1) then []
  else (searchRank raw threshold).map Prod.snd

theorem zip4_length_le {α β γ δ : Type} (as : List α) (bs : List β) (cs : List γ)
    (ds : List δ) : (zip4 as bs cs ds).length ≤ as.length := by
  induction as generalizing bs cs ds with
  | nil => rw [zip4.eq_def]; cases bs <;> cases cs <;> cases ds <;> simp
  | cons a as ih =>
    cases bs with
    | nil => rw [zip4.eq_def]; simp
    | cons b bs =>
      cases cs with
      | nil => rw [zip4.eq_def]; simp
      | cons c cs =>
        cases ds with
        | nil => rw [zip4.eq_def]; simp
        | cons d ds =>
          rw [zip4]
          simpa using ih bs cs ds

theorem searchOrder_total : ∀ x y, searchOrder x y ∨ searchOrder y x := by
  intro x y
  unfold searchOrder
  rcases lt_trichotomy x.2.similarity_score y.2.similarity_score with h | h | h
  · exact Or.inr (Or.inl h)
  · rcases Nat.le_total x.1 y.1 with hi | hi
    · exact Or.inl (Or.inr ⟨h, hi⟩)
    · exact Or.inr (Or.inr ⟨h.symm, hi⟩)
  · exact Or.inl (Or.inl h)

theorem searchOrder_trans : ∀ x y z, searchOrder x y → searchOrder y z → searchOrder x z := by
  intro x y z hxy hyz
  unfold searchOrder at *
  rcases hxy with h1 | ⟨h1, h1i⟩ <;> rcases hyz with h2 | ⟨h2, h2i⟩
  · exact Or.inl (h2.trans h1)
  · exact Or.inl (h2 ▸ h1)
  · exact Or.inl (h1 ▸ h2)
  · exact Or.inr ⟨h1.trans h2, h1i.trans h2i⟩

/-- Every member of the formatted list carries `1 / (1 + distance)` as its
score, and only rows at or above the threshold survive. -/
theorem searchFormatted_mem (raw : ChromaQueryResult) (th : ℚ) :
    ∀ r ∈ searchFormatted raw th,
      r.similarity_score = 1 / (1 + r.distance) ∧ th ≤ r.similarity_score := by
  intro r hr
  rw [searchFormatted, List.mem_filterMap] at hr
  obtain ⟨row, -, hrow⟩ := hr
  by_cases hth : th ≤ 1 / (1 + row.2.2.1)
  · rw [if_pos hth] at hrow
    cases hrow
    exact ⟨rfl, hth⟩
  · rw [if_neg hth] at hrow
    cases hrow

/-- C2: with the ChromaDB contract that `collection.query` returns at most
`top_k` rows, `search_similar` returns at most `top_k` results, every result
has `similarity_score = 1 / (1 + distance)` and score at least the threshold,
the results are sorted by descending score, and tied scores keep their
original retrieval order (strictly increasing original positions in the
enumerated ranking whose projection the function returns). -/
theorem search_similar_spec (raw : ChromaQueryResult) (th : ℚ) (k : ℕ)
    (hk : raw.documents.length ≤ k) :
    (search_similar raw th).length ≤ k ∧
    (∀ r ∈ search_similar raw th,
      r.similarity_score = 1 / (1 + r.distance) ∧ th ≤ r.similarity_score) ∧
    (search_similar raw th).Pairwise
      (fun x y => y.similarity_score ≤ x.similarity_score) ∧
    (searchRank raw th).Pairwise
      (fun x y => x.2.similarity_score = y.2.similarity_score → x.1 < y.1) := by
  haveI : IsTotal (ℕ × SearchRec) searchOrder := ⟨searchOrder_total⟩
  haveI : IsTrans (ℕ × SearchRec) searchOrder := ⟨searchOrder_trans⟩
  have hperm : List.Perm (searchRank raw th) (searchFormatted raw th).enum :=
    List.perm_insertionSort searchOrder _
  have hsorted : (searchRank raw th).Sorted searchOrder :=
    List.sorted_insertionSort searchOrder _
  have hnodup : ((searchRank raw th).map Prod.fst).Nodup := by
    have h1 : List.Perm ((searchRank raw th).map Prod.fst)
        ((searchFormatted raw th).enum.map Prod.fst) := hperm.map Prod.fst
    exact (h1.nodup_iff).2 (List.nodup_enum_map_fst _)
  have hties : (searchRank raw th).Pairwise
      (fun x y => x.2.similarity_score = y.2.similarity_score → x.1 < y.1) := by
    have hne : (searchRank raw th).Pairwise (fun x y => x.1 ≠ y.1) :=
      (List.pairwise_map.1 hnodup)
    refine (hsorted.and hne).imp ?_
    rintro x y ⟨hord, hxy⟩ heq
    rcases hord with h | ⟨-, hle⟩
    · exact absurd h (by rw [heq]; exact lt_irrefl _)
    · exact lt_of_le_of_ne hle hxy
  refine ⟨?_, ?_, ?_, hties⟩
  · rw [search_similar]
    split
    · simp
    · rw [List.length_map]
      calc (searchRank raw th).length
          = (searchFormatted raw th).enum.length := hperm.length_eq
        _ = (searchFormatted raw th).length := List.enum_length
        _ ≤ (zip4 raw.documents raw.metadatas raw.distances raw.ids).length :=
            List.length_filterMap_le _ _
        _ ≤ raw.documents.length := zip4_length_le _ _ _ _
        _ ≤ k := hk
  · intro r hr
    rw [search_similar] at hr
    split at hr
    · cases hr
    · rw [List.mem_map] at hr
      obtain ⟨x, hx, rfl⟩ := hr
      have hx2 : x ∈ (searchFormatted raw th).enum := hperm.mem_iff.1 hx
      have hx3 : x.2 ∈ searchFormatted raw th :=
        List.getElem?_mem (List.mem_enum_iff_getElem?.1 hx2)
      exact searchFormatted_mem raw th _ hx3
  · rw [search_similar]
    split
    · simp
    · refine List.pairwise_map.2 (hsorted.imp ?_)
      rintro x y hord
      rcases hord with h | ⟨h, -⟩
      · exact le_of_lt h
      · exact le_of_eq h.symm

/-- Witness for C2 at a concrete one-row query result with `top_k = 5`. -/
theorem search_similar_spec_witness :
    (search_similar ⟨["doc".data], [[]], [(3 : ℚ)], ["id1".data]⟩ 0).length ≤ 5 :=
  (search_similar_spec ⟨["doc".data], [[]], [(3 : ℚ)], ["id1".data]⟩ 0 5 (by decide)).1

/-- Structural worker for `chunkBatches`; the first argument is fuel that the
wrapper instantiates with the list length, which suffices for any positive
batch size. -/
def chunkBatchesGo {α : Type} (bs : ℕ) : ℕ → List α → List (List α)
  | 0, _ => []
  | _, [] => []
  | n + 1, x :: xs => (x :: xs).take bs :: chunkBatchesGo bs n ((x :: xs).drop bs)

/-- The batch grouping `texts[i:i + batch_size]` of
`EmbeddingGenerator.generate_embeddings_batch`; `batch_size = 0` would make
Python `range` raise, so the theorems assume it positive. -/
def chunkBatches {α : Type} (bs : ℕ) (l : List α) : List (List α) :=
  if bs = 0 then [] else chunkBatchesGo bs l.length l

/-- Model of `EmbeddingGenerator.generate_embeddings_batch`.  The two oracles
describe the remote service: `batchFn` is `_process_embedding_batch` (`none`
models the request raising) and `singleFn` is `generate_embedding` for one
text.  When a group request fails, each text of the group is retried alone,
and a failed single text contributes the hard-coded `[0.0] * 1536`. -/
def generate_embeddings_batch
    (batchFn : List (List Char) → Option (List (List ℚ)))
    (singleFn : List Char → Option (List ℚ))
    (texts : List (List Char)) (batch_size : ℕ) : List (List ℚ) :=
  if texts.isEmpty then []
  else (chunkBatches batch_size texts).flatMap (fun batch =>
    match batchFn batch with
    | some es => es
    | none => batch.map (fun t =>
        match singleFn t with
        | some e => e
        | none => List.replicate 1536 0))

/-- The static model-dimension table of
`EmbeddingGenerator.get_embedding_dimension`. -/
def model_dimensions : List (List Char × ℕ) :=
  [("text-embedding-ada-002".data, 1536),
   ("text-embedding-3-small".data, 1536),
   ("text-embedding-3-large".data, 3072),
   ("sentence-transformers/all-MiniLM-L6-v2".data, 384),
   ("sentence-transformers/all-mpnet-base-v2".data, 768)]

/-- Model of `EmbeddingGenerator.get_embedding_dimension`: the static table
first (`if dimension:` also rejects a zero entry), then a probe embedding of
`"test"` (`none` models the probe raising), then the fallback `1536`. -/
def get_embedding_dimension (model : List Char) (probe : Option (List ℚ)) : ℕ :=
  let probeResult : ℕ := match probe with
    | some e => e.length
    | none => 1536
  match model_dimensions.lookup model with
  | some d => if d = 0 then probeResult else d
  | none => probeResult

theorem chunkBatchesGo_flatMap_id {α : Type} (bs : ℕ) (hbs : 0 < bs) :
    ∀ (n : ℕ) (l : List α), l.length ≤ n → (chunkBatchesGo bs n l).flatMap id = l := by
  intro n
  induction n with
  | zero =>
    intro l hl
    rw [List.length_eq_zero.1 (Nat.le_zero.1 hl)]
    rfl
  | succ n ih =>
    intro l hl
    cases l with
    | nil => rfl
    | cons x xs =>
      rw [chunkBatchesGo, List.flatMap_cons,
        ih ((x :: xs).drop bs) (by simp at hl ⊢; omega)]
      simp

theorem chunkBatches_flatMap_id {α : Type} (bs : ℕ) (hbs : 0 < bs) (l : List α) :
    (chunkBatches bs l).flatMap id = l := by
  rw [chunkBatches, if_neg (by omega)]
  exact chunkBatchesGo_flatMap_id bs hbs l.length l le_rfl

theorem flatMap_length_congr {α β : Type} (chunks : List (List α)) (g : List α → List β)
    (h : ∀ b ∈ chunks, (g b).length = b.length) :
    (chunks.flatMap g).length = (chunks.flatMap id).length := by
  induction chunks with
  | nil => rfl
  | cons b rest ih =>
    rw [List.flatMap_cons, List.flatMap_cons, List.length_append, List.length_append,
      h b (List.mem_cons_self b rest), ih (fun b hb => h b (List.mem_cons_of_mem _ hb))]
    rfl

/-- C3 (counterexample): the fallback zero vector has the hard-coded length
1536, not the configured model dimension.  With model
`text-embedding-3-large` (dimension 3072), a batch of 3 texts whose group
request fails and whose middle text also fails individually yields 3 vectors,
but the substituted vector has 1536 entries, not 3072. -/
theorem batch_zero_vector_counterexample :
    (generate_embeddings_batch (fun _ => none)
        (fun t => if t = "b".data then none else some [1])
        ["a".data, "b".data, "c".data] 100).length = 3 ∧
    (generate_embeddings_batch (fun _ => none)
        (fun t => if t = "b".data then none else some [1])
        ["a".data, "b".data, "c".data] 100)[1]? = some (List.replicate 1536 (0 : ℚ)) ∧
    get_embedding_dimension "text-embedding-3-large".data none = 3072 ∧
    (List.replicate 1536 (0 : ℚ)).length ≠
      get_embedding_dimension "text-embedding-3-large".data none := by
  refine ⟨rfl, rfl, rfl, ?_⟩
  rw [List.length_replicate]
  intro h
  rw [show get_embedding_dimension "text-embedding-3-large".data none = 3072 from rfl] at h
  omega

/-- C3 (amended): for every non-empty input list and positive batch size,
`generate_embeddings_batch` returns exactly one vector per input text in input
order (assuming the batch endpoint returns one embedding per requested text
when it succeeds); when every group request fails, the output is exactly the
per-text fallback sequence, in which a text whose individual embedding also
fails contributes the zero vector of the hard-coded length 1536 — not the
dimension that `get_embedding_dimension` reports for the configured model. -/
theorem generate_embeddings_batch_spec
    (batchFn : List (List Char) → Option (List (List ℚ)))
    (singleFn : List Char → Option (List ℚ))
    (texts : List (List Char)) (bs : ℕ) (hbs : 0 < bs)
    (hbatch : ∀ b es, batchFn b = some es → es.length = b.length) :
    (generate_embeddings_batch batchFn singleFn texts bs).length = texts.length ∧
    ((∀ b, batchFn b = none) →
      generate_embeddings_batch batchFn singleFn texts bs =
        texts.map (fun t =>
          match singleFn t with
          | some e => e
          | none => List.replicate 1536 0)) := by
  constructor
  · rw [generate_embeddings_batch]
    split
    · rename_i he
      rw [List.isEmpty_iff] at he
      rw [he]
      rfl
    · rw [flatMap_length_congr]
      · rw [chunkBatches_flatMap_id bs hbs]
      · intro b _
        cases hb : batchFn b with
        | some es => exact hbatch b es hb
        | none => exact List.length_map b _
  · intro hall
    rw [generate_embeddings_batch]
    split
    · rename_i he
      rw [List.isEmpty_iff] at he
      rw [he]
      rfl
    · have hg : (chunkBatches bs texts).flatMap (fun batch =>
          match batchFn batch with
          | some es => es
          | none => batch.map (fun t =>
              match singleFn t with
              | some e => e
              | none => List.replicate 1536 0)) =
          (chunkBatches bs texts).flatMap (fun batch => batch.map (fun t =>
              match singleFn t with
              | some e => e
              | none => List.replicate 1536 0)) := by
        refine List.flatMap_congr ?_
        intro b _
        rw [hall b]
      rw [hg, ← List.map_flatMap]
      have hid : ((chunkBatches bs texts).flatMap fun batch => batch) = texts := by
        rw [show ((chunkBatches bs texts).flatMap fun batch => batch) =
          (chunkBatches bs texts).flatMap id from rfl]
        exact chunkBatches_flatMap_id bs hbs texts
      rw [hid]

/-- Witness for C3 (amended) at a concrete three-text batch. -/
theorem generate_embeddings_batch_spec_witness :
    (generate_embeddings_batch (fun _ => none)
      (fun t => if t = "x".data then some [2] else none)
      ["x".data, "y".data, "z".data] 2).length = 3 :=
  (generate_embeddings_batch_spec (fun _ => none)
    (fun t => if t = "x".data then some [2] else none)
    ["x".data, "y".data, "z".data] 2 (by decide)
    (fun _ es h => Option.noConfusion h)).1

/-- Python `x or default` for an optional integer argument: `None` and `0` are
falsy, every other value is kept. -/
def pyOrInt (arg : Option ℤ) (d : ℤ) : ℤ :=
  match arg with
  | none => d
  | some v => if v = 0 then d else v

/-- Python `x or default` for an optional float argument: `None` and `0.0` are
falsy, every other value is kept. -/
def pyOrRat (arg : Option ℚ) (d : ℚ) : ℚ :=
  match arg with
  | none => d
  | some v => if v = 0 then d else v

/-- Python `dict.get(key, default)` over an association list. -/
def dictGetD (m : List (List Char × PVal)) (k : List Char) (d : PVal) : PVal :=
  match m.lookup k with
  | some v => v
  | none => d

/-- One formatted result of `RAGRetriever.retrieve_relevant_content`. -/
structure RetrieveResult where
  content : List Char
  metadata : List (List Char × PVal)
  similarity_score : ℚ
  source : PVal

/-- Instrumented outcome of `RAGRetriever.retrieve_relevant_content`:
`results` is the Python return value, `embedCalls` counts invocations of the
embedding service, and `searchArgs` records the `top_k` and threshold actually
passed to `VectorStore.search_similar` (if the search was reached). -/
structure RetrieveOutcome where
  embedCalls : ℕ
  searchArgs : Option (ℤ × ℚ)
  results : List RetrieveResult

/-- Model of `RAGRetriever.retrieve_relevant_content`.  The collaborators are
oracles: `embedFn` is `EmbeddingGenerator.generate_embedding` (`none` models a
raised exception, which the surrounding `except` turns into `[]`), and
`searchFn` is `VectorStore.search_similar` on the current collection state
(which never raises).  The whitespace-query check happens before any of them. -/
def retrieve_relevant_content
    (cfgTopK : ℤ) (cfgThreshold : ℚ)
    (embedFn : List Char → Option (List ℚ))
    (searchFn : List ℚ → ℤ → ℚ → List SearchRec)
    (query : List Char) (top_k : Option ℤ)
    (similarity_threshold : Option ℚ) : RetrieveOutcome :=
  if pyStrip query = [] then ⟨0, none, []⟩
  else
    let tk := pyOrInt top_k cfgTopK
    let st := pyOrRat similarity_threshold cfgThreshold
    match embedFn query with
    | none => ⟨1, none, []⟩
    | some emb =>
        ⟨1, some (tk, st),
          (searchFn emb tk st).map (fun r =>
            ⟨r.content, r.metadata, r.similarity_score,
              dictGetD r.metadata "source".data (PVal.vstr "unknown".data)⟩)⟩

/-- C8: a query that is empty or all whitespace makes
`retrieve_relevant_content` return the empty list without invoking the
embedding service or the vector store search. -/
theorem retrieve_empty_query
    (cfgTopK : ℤ) (cfgThreshold : ℚ)
    (embedFn : List Char → Option (List ℚ))
    (searchFn : List ℚ → ℤ → ℚ → List SearchRec)
    (query : List Char) (top_k : Option ℤ) (st : Option ℚ)
    (hq : pyStrip query = []) :
    retrieve_relevant_content cfgTopK cfgThreshold embedFn searchFn query top_k st =
      ⟨0, none, []⟩ := by
  rw [retrieve_relevant_content, if_pos hq]

/-- Witness for C8 at the two-space query. -/
theorem retrieve_empty_query_witness :
    retrieve_relevant_content 5 (7/10) (fun _ => some [1]) (fun _ _ _ => [])
      "  ".data none none = ⟨0, none, []⟩ :=
  retrieve_empty_query 5 (7/10) (fun _ => some [1]) (fun _ _ _ => [])
    "  ".data none none (by rfl)

/-- C10: the caller-supplied `top_k` and `similarity_threshold` are replaced by
the configured defaults whenever they are falsy, not only when omitted: an
explicit `0` (or `0.0`) behaves exactly like an absent argument, and the
search can only ever be invoked with a zero `top_k` or threshold if the
configured default itself is zero. -/
theorem retrieve_falsy_defaults
    (cfgTopK : ℤ) (cfgThreshold : ℚ)
    (embedFn : List Char → Option (List ℚ))
    (searchFn : List ℚ → ℤ → ℚ → List SearchRec)
    (query : List Char) (top_k : Option ℤ) (st : Option ℚ) :
    retrieve_relevant_content cfgTopK cfgThreshold embedFn searchFn query (some 0) st =
      retrieve_relevant_content cfgTopK cfgThreshold embedFn searchFn query none st ∧
    retrieve_relevant_content cfgTopK cfgThreshold embedFn searchFn query top_k (some 0) =
      retrieve_relevant_content cfgTopK cfgThreshold embedFn searchFn query top_k none ∧
    (∀ p : ℤ × ℚ,
      (retrieve_relevant_content cfgTopK cfgThreshold embedFn searchFn
          query top_k st).searchArgs = some p →
      (p.1 = 0 → cfgTopK = 0) ∧ (p.2 = 0 → cfgThreshold = 0)) := by
  refine ⟨rfl, rfl, ?_⟩
  intro p hp
  rw [retrieve_relevant_content] at hp
  split at hp
  · cases hp
  · rcases hemb : embedFn query with - | emb
    · rw [hemb] at hp
      cases hp
    · rw [hemb] at hp
      have hp2 : (pyOrInt top_k cfgTopK, pyOrRat st cfgThreshold) = p :=
        Option.some.inj hp
      rw [← hp2]
      constructor
      · intro h1
        cases top_k with
        | none => exact h1
        | some v =>
          rw [pyOrInt] at h1
          by_cases hv : v = 0
          · rw [if_pos hv] at h1
            exact h1
          · rw [if_neg hv] at h1
            exact absurd h1 hv
      · intro h2
        cases st with
        | none => exact h2
        | some v =>
          rw [pyOrRat] at h2
          by_cases hv : v = 0
          · rw [if_pos hv] at h2
            exact h2
          · rw [if_neg hv] at h2
            exact absurd h2 hv

/-- Witness for C10: with configured defaults `5` and `7/10`, a reachable
search records arguments for which the theorem's implications are discharged
at a concrete query. -/
theorem retrieve_falsy_defaults_witness :
    ((5 : ℤ) = 0 → (5 : ℤ) = 0) ∧ ((7/10 : ℚ) = 0 → (7/10 : ℚ) = 0) :=
  (retrieve_falsy_defaults 5 (7/10) (fun _ => some [1]) (fun _ _ _ => [])
    "hi".data none none).2.2 (5, 7/10) rfl

/-- One candidate file as seen by `DocumentProcessor.process_all_documents`:
its content hash (`_calculate_file_hash`, including the path-based fallback)
and the chunk records `process_document` would emit for it (empty when the
read fails, the content is empty, or an exception is caught). -/
structure PFile where
  hash : List Char
  recs : List (List Char)

/-- One fold step of the `process_all_documents` loop over the
`(processed_documents, all_documents)` state: skip an already-processed hash,
and only record the hash when the file produced at least one chunk. -/
def processStep (st : List (List Char) × List (List Char × List Char)) (f : PFile) :
    List (List Char) × List (List Char × List Char) :=
  if f.hash ∈ st.1 then st
  else if f.recs.isEmpty then st
  else (f.hash :: st.1, st.2 ++ f.recs.map (fun r => (f.hash, r)))

/-- Model of `DocumentProcessor.process_all_documents` over an already
enumerated candidate list: the emitted records, each tagged with the content
hash of the file it came from (as `file_hash` in the real metadata). -/
def process_all_documents (files : List PFile) : List (List Char × List Char) :=
  (files.foldl processStep ([], [])).2

theorem filter_map_const_hash (h a : List Char) (rs : List (List Char)) :
    (rs.map (fun r => (a, r))).filter (fun p => p.1 == h) =
      if a = h then rs.map (fun r => (a, r)) else [] := by
  induction rs with
  | nil => simp
  | cons r rs ih =>
    by_cases hah : a = h
    · simp only [List.map_cons, List.filter_cons]
      rw [if_pos hah] at ih ⊢
      simp [hah, ih]
    · simp only [List.map_cons, List.filter_cons]
      rw [if_neg hah] at ih ⊢
      have : (((a, r) : List Char × List Char).1 == h) = false := by
        simpa using hah
      simp [this, ih]

/-- The generalized fold invariant behind C9: once a hash is recorded no
further records with it are appended, and before that exactly the first
productive file with that hash contributes. -/
theorem processFold_filter (h : List Char) (files : List PFile) :
    ∀ (S : List (List Char)) (acc : List (List Char × List Char)),
      (h ∈ S →
        (files.foldl processStep (S, acc)).2.filter (fun p => p.1 == h) =
          acc.filter (fun p => p.1 == h)) ∧
      (h ∉ S →
        (files.foldl processStep (S, acc)).2.filter (fun p => p.1 == h) =
          acc.filter (fun p => p.1 == h) ++
            (match files.find? (fun f => f.hash == h && !f.recs.isEmpty) with
              | some f => f.recs.map (fun r => (h, r))
              | none => [])) := by
  induction files with
  | nil =>
    intro S acc
    exact ⟨fun _ => rfl, fun _ => by simp⟩
  | cons f fs ih =>
    intro S acc
    rw [List.foldl_cons]
    by_cases hmem : f.hash ∈ S
    · have hstep : processStep (S, acc) f = (S, acc) := by
        rw [processStep, if_pos hmem]
      rw [hstep]
      constructor
      · intro hS
        exact (ih S acc).1 hS
      · intro hS
        have hne : f.hash ≠ h := fun he => hS (he ▸ hmem)
        rw [List.find?_cons_of_neg _ (by simp [hne])]
        exact (ih S acc).2 hS
    · by_cases hempty : f.recs.isEmpty
      · have hstep : processStep (S, acc) f = (S, acc) := by
          rw [processStep, if_neg hmem, if_pos hempty]
        rw [hstep]
        constructor
        · intro hS
          exact (ih S acc).1 hS
        · intro hS
          rw [List.find?_cons_of_neg _ (by simp [hempty])]
          exact (ih S acc).2 hS
      · have hstep : processStep (S, acc) f =
            (f.hash :: S, acc ++ f.recs.map (fun r => (f.hash, r))) := by
          rw [processStep, if_neg hmem, if_neg hempty]
        rw [hstep]
        constructor
        · intro hS
          have hSin : h ∈ f.hash :: S := List.mem_cons_of_mem _ hS
          rw [(ih _ _).1 hSin, List.filter_append, filter_map_const_hash]
          have hne : f.hash ≠ h := fun he => hmem (he ▸ hS)
          rw [if_neg hne, List.append_nil]
        · intro hS
          by_cases hfh : f.hash = h
          · rw [List.find?_cons_of_pos _ (by simp [hfh, hempty])]
            have hSin : h ∈ f.hash :: S := by
              rw [hfh]
              exact List.mem_cons_self _ _
            rw [(ih _ _).1 hSin, List.filter_append, filter_map_const_hash, if_pos hfh, hfh]
          · rw [List.find?_cons_of_neg _ (by simp [hfh])]
            have hSout : h ∉ f.hash :: S := by
              intro hc
              rcases List.mem_cons.1 hc with hc | hc
              · exact hfh hc.symm
              · exact hS hc
            rw [(ih _ _).2 hSout, List.filter_append, filter_map_const_hash, if_neg hfh,
              List.append_nil]

/-- C9: within one `process_all_documents` run, the records carrying any given
content hash are exactly the chunks of the first file with that hash that
produced any chunks; every later file with an already-processed hash
contributes nothing. -/
theorem process_all_documents_dedup (files : List PFile) (h : List Char) :
    (process_all_documents files).filter (fun p => p.1 == h) =
      (match files.find? (fun f => f.hash == h && !f.recs.isEmpty) with
        | some f => f.recs.map (fun r => (h, r))
        | none => []) := by
  rw [process_all_documents]
  have := (processFold_filter h files [] []).2 (by simp)
  rw [this]
  rfl

/-- One pass of `re.sub(r'\s+', ' ', text)`: every maximal run of whitespace
becomes a single space.  The flag records whether the previous character was
part of a whitespace run. -/
def cleanWSAux : Bool → List Char → List Char
  | _, [] => []
  | inRun, c :: rest =>
      if pyIsSpace c then
        if inRun then cleanWSAux true rest else ' ' :: cleanWSAux true rest
      else c :: cleanWSAux false rest

/-- Python `re.sub(r'\s+', ' ', text)`. -/
def cleanWS (l : List Char) : List Char := cleanWSAux false l

/-- Model of `TextChunker._clean_text`.  The first substitution replaces every
whitespace run (newlines included) by one space, so its output contains no
newline (`cleanWS_no_newline` below); the second substitution
`re.sub(r'\n\s*\n\s*\n+', '\n\n', ...)` therefore never matches and is the
identity, leaving only the final `strip()`. -/
def clean_text (l : List Char) : List Char := pyStrip (cleanWS l)

/-- Python substring test `pat in text` for a nonempty pattern. -/
def containsSub (pat : List Char) : List Char → Bool
  | [] => pat.isEmpty
  | c :: rest => pat.isPrefixOf (c :: rest) || containsSub pat rest

/-- Structural worker for Python `str.split(sep)` with nonempty `sep`; fuel is
instantiated with the input length plus one, which always suffices. -/
def pySplitGo (sep : List Char) : ℕ → List Char → List Char → List (List Char)
  | 0, cur, l => [cur ++ l]
  | fuel + 1, cur, l =>
      if sep.isPrefixOf l then cur :: pySplitGo sep fuel [] (l.drop sep.length)
      else match l with
        | [] => [cur]
        | a :: rest => pySplitGo sep fuel (cur ++ [a]) rest

/-- Python `text.split(sep)` for a nonempty separator. -/
def pySplit (sep l : List Char) : List (List Char) := pySplitGo sep (l.length + 1) [] l

/-- Python slice `l[a:b]` with full negative-index clamping semantics. -/
def pySliceZ (l : List Char) (a b : ℤ) : List Char :=
  let n : ℤ := l.length
  let ea : ℤ := if a < 0 then max (n + a) 0 else min a n
  let eb : ℤ := if b < 0 then max (n + b) 0 else min b n
  (l.take eb.toNat).drop ea.toNat

/-- Python indexing `l[i]` (negative indices count from the end; out of range
raises `IndexError`, modelled as `none`). -/
def pyIndexZ (l : List Char) (i : ℤ) : Option Char :=
  if 0 ≤ i then l[i.toNat]?
  else if 0 ≤ (l.length : ℤ) + i then l[((l.length : ℤ) + i).toNat]?
  else none

/-- The word-boundary back-off loop of `TextChunker._chunk_by_characters`
(`while chunk_end > start and text[chunk_end] != ' '`), with fuel tied to the
exact number of remaining iterations. -/
def backoffGo (text : List Char) (start : ℤ) : ℕ → ℤ → Option ℤ
  | 0, ce => some ce
  | f + 1, ce =>
      match pyIndexZ text ce with
      | none => none
      | some ch => if ch = ' ' then some ce else backoffGo text start f (ce - 1)

/-- The back-off of `_chunk_by_characters` from position `ce` towards `start`. -/
def backoff (text : List Char) (start ce : ℤ) : Option ℤ :=
  backoffGo text start (ce - start).toNat ce

/-- The while loop of `TextChunker._chunk_by_characters`.  `none` models both
a raised `IndexError` and non-termination (the loop does not advance when the
overlap is at least the chunk progress). -/
def chunkByCharsGo (size overlap : ℤ) (text : List Char) : ℕ → ℤ → Option (List (List Char))
  | 0, _ => none
  | f + 1, start =>
      if start < (text.length : ℤ) then
        if (text.length : ℤ) ≤ start + size then
          some [pySliceZ text start (text.length : ℤ)]
        else
          match backoff text start (start + size) with
          | none => none
          | some ce0 =>
              match chunkByCharsGo size overlap text f
                  ((if ce0 = start then start + size else ce0) - overlap) with
              | none => none
              | some rest =>
                  some (pySliceZ text start (if ce0 = start then start + size else ce0) :: rest)
      else some []

/-- Model of `TextChunker._chunk_by_characters`. -/
def chunk_by_characters (size overlap : ℤ) (text : List Char) (fuel : ℕ) :
    Option (List (List Char)) :=
  chunkByCharsGo size overlap text fuel 0

/-- The scan of `TextChunker._get_overlap_text` that advances `start_pos` to
just past the next space (or to the end of the text). -/
def dropToSpace : List Char → List Char
  | [] => []
  | c :: rest => if c = ' ' then rest else dropToSpace rest

/-- Model of `TextChunker._get_overlap_text`. -/
def get_overlap_text (text : List Char) (osize : ℤ) : List Char :=
  if (text.length : ℤ) ≤ osize then text
  else pyStrip (dropToSpace (text.drop ((text.length : ℤ) - osize).toNat))

/-- One overlapped chunk of `TextChunker._apply_overlap`
(`overlap_text + " " + current_chunk` when the overlap text is nonempty). -/
def overlapPair (overlap : ℤ) (prev cur : List Char) : List Char :=
  let ot := get_overlap_text prev overlap
  if ot.isEmpty then cur else ot ++ ' ' :: cur

/-- The loop of `TextChunker._apply_overlap` over chunks `1, 2, …`, each
receiving overlap text from the original previous chunk. -/
def applyOverlapGo (overlap : ℤ) : List Char → List (List Char) → List (List Char)
  | _, [] => []
  | prev, cur :: rest => overlapPair overlap prev cur :: applyOverlapGo overlap cur rest

/-- Model of `TextChunker._apply_overlap`. -/
def apply_overlap (overlap : ℤ) (chunks : List (List Char)) : List (List Char) :=
  if chunks.length ≤ 1 ∨ overlap ≤ 0 then chunks
  else match chunks with
    | [] => []
    | c0 :: rest => c0 :: applyOverlapGo overlap c0 rest

/-- The separator priority list of `TextChunker._chunk_recursively`. -/
def SEPARATORS : List (List Char) :=
  ["\n\n".data, "\n".data, ". ".data, "! ".data, "? ".data, "; ".data, ", ".data, " ".data]

/-- Call shapes of the mutually recursive chunker core: `recursive` is
`_chunk_recursively`, `trySeps` its separator loop, `splitBySep` is
`_split_by_separator`, and `accumulate` the greedy loop inside it. -/
inductive ChunkCall where
  | recursive (text : List Char)
  | trySeps (text : List Char) (seps : List (List Char))
  | splitBySep (text : List Char) (sep : List Char)
  | accumulate (sep : List Char) (parts : List (List Char)) (cur : List Char)
      (acc : List (List Char))

/-- The mutually recursive core of `TextChunker`, fuelled so that every call
is structural (each recursive call spends one unit; the top-level wrapper
passes a generous budget).  `none` models exhaustion of the budget only. -/
def chunkGo (size overlap : ℤ) : ℕ → ChunkCall → Option (List (List Char))
  | 0, _ => none
  | g + 1, ChunkCall.recursive text =>
      if (text.length : ℤ) ≤ size then
        some (if (pyStrip text).isEmpty then [] else [text])
      else
        match chunkGo size overlap g (ChunkCall.trySeps text SEPARATORS) with
        | none => none
        | some chunks =>
            some ((chunks.map pyStrip).filter (fun c => !c.isEmpty))
  | _ + 1, ChunkCall.trySeps text [] =>
      chunk_by_characters size overlap text
        (text.length + size.natAbs + overlap.natAbs + 2)
  | g + 1, ChunkCall.trySeps text (sep :: rest) =>
      if containsSub sep text then
        match chunkGo size overlap g (ChunkCall.splitBySep text sep) with
        | none => none
        | some [] => chunkGo size overlap g (ChunkCall.trySeps text rest)
        | some cs => some cs
      else chunkGo size overlap g (ChunkCall.trySeps text rest)
  | g + 1, ChunkCall.splitBySep text sep =>
      match chunkGo size overlap g (ChunkCall.accumulate sep (pySplit sep text) [] []) with
      | none => none
      | some cs => some (if 1 < cs.length then apply_overlap overlap cs else cs)
  | _ + 1, ChunkCall.accumulate _ [] cur acc =>
      some (if cur.isEmpty then acc else acc ++ [cur])
  | g + 1, ChunkCall.accumulate sep (part :: ps) cur acc =>
      let test := if cur.isEmpty then part else cur ++ sep ++ part
      if (test.length : ℤ) ≤ size then
        chunkGo size overlap g (ChunkCall.accumulate sep ps test acc)
      else
        let acc2 := if cur.isEmpty then acc else acc ++ [cur]
        if size < (part.length : ℤ) then
          match chunkGo size overlap g (ChunkCall.recursive part) with
          | none => none
          | some sub => chunkGo size overlap g (ChunkCall.accumulate sep ps [] (acc2 ++ sub))
        else chunkGo size overlap g (ChunkCall.accumulate sep ps part acc2)

/-- Model of `TextChunker._chunk_recursively`. -/
def chunk_recursively (size overlap : ℤ) (fuel : ℕ) (text : List Char) :
    Option (List (List Char)) :=
  chunkGo size overlap fuel (ChunkCall.recursive text)

/-- Model of `TextChunker._split_by_separator`. -/
def split_by_separator (size overlap : ℤ) (fuel : ℕ) (text sep : List Char) :
    Option (List (List Char)) :=
  chunkGo size overlap fuel (ChunkCall.splitBySep text sep)

/-- The regex split `re.split(r'(?<=[.!?])\s+', text)` of
`TextChunker._chunk_by_sentences`: split at each maximal whitespace run whose
preceding character is sentence-ending punctuation. -/
def sentSplitGo : ℕ → Bool → List Char → List Char → List (List Char)
  | 0, _, cur, l => [cur ++ l]
  | fuel + 1, prevPunct, cur, l =>
      match l with
      | [] => [cur]
      | c :: rest =>
          if pyIsSpace c ∧ prevPunct then
            cur :: sentSplitGo fuel false [] (rest.dropWhile pyIsSpace)
          else sentSplitGo fuel (c = '.' ∨ c = '!' ∨ c = '?') (cur ++ [c]) rest

/-- The sentence split of `TextChunker._chunk_by_sentences`. -/
def sentSplit (text : List Char) : List (List Char) :=
  sentSplitGo (text.length + 1) false [] text

/-- The greedy accumulation loop of `TextChunker._chunk_by_sentences`
(oversized sentences are handed to `_chunk_recursively`). -/
def sentAccGo (size overlap : ℤ) (fuel : ℕ) :
    List (List Char) → List Char → List (List Char) → Option (List (List Char))
  | [], cur, acc => some (if cur.isEmpty then acc else acc ++ [cur])
  | s :: ss, cur, acc =>
      let test := if cur.isEmpty then s else cur ++ ' ' :: s
      if (test.length : ℤ) ≤ size then sentAccGo size overlap fuel ss test acc
      else
        let acc2 := if cur.isEmpty then acc else acc ++ [cur]
        if size < (s.length : ℤ) then
          match chunk_recursively size overlap fuel s with
          | none => none
          | some sub => sentAccGo size overlap fuel ss [] (acc2 ++ sub)
        else sentAccGo size overlap fuel ss s acc2

/-- Model of `TextChunker._chunk_by_sentences`. -/
def chunk_by_sentences (size overlap : ℤ) (fuel : ℕ) (text : List Char) :
    Option (List (List Char)) :=
  match sentAccGo size overlap fuel (sentSplit text) [] [] with
  | none => none
  | some cs => some (if 1 < cs.length then apply_overlap overlap cs else cs)

/-- The paragraph loop of `TextChunker._chunk_by_paragraphs` (blank-line split,
oversized paragraphs handed to `_chunk_recursively`). -/
def paraGo (size overlap : ℤ) (fuel : ℕ) :
    List (List Char) → List (List Char) → Option (List (List Char))
  | [], acc => some acc
  | p :: ps, acc =>
      let q := pyStrip p
      if q.isEmpty then paraGo size overlap fuel ps acc
      else if (q.length : ℤ) ≤ size then paraGo size overlap fuel ps (acc ++ [q])
      else match chunk_recursively size overlap fuel q with
        | none => none
        | some sub => paraGo size overlap fuel ps (acc ++ sub)

/-- Model of `TextChunker._chunk_by_paragraphs`. -/
def chunk_by_paragraphs (size overlap : ℤ) (fuel : ℕ) (text : List Char) :
    Option (List (List Char)) :=
  match paraGo size overlap fuel (pySplit "\n\n".data text) [] with
  | none => none
  | some cs => some (if 1 < cs.length then apply_overlap overlap cs else cs)

/-- Model of `TextChunker.chunk_text`: clean, then dispatch on the method
(anything other than `"sentence"`/`"paragraph"` is the recursive default). -/
def chunk_text (size overlap : ℤ) (fuel : ℕ) (text : List Char) (method : List Char) :
    Option (List (List Char)) :=
  if (pyStrip text).isEmpty then some []
  else
    let cleaned := clean_text text
    if method = "sentence".data then chunk_by_sentences size overlap fuel cleaned
    else if method = "paragraph".data then chunk_by_paragraphs size overlap fuel cleaned
    else chunk_recursively size overlap fuel cleaned

/-- A string with at least one non-whitespace character (equivalently, one
that `strip()` does not empty; see `pyStrip_ne_nil_iff`). -/
def HasNonWS (l : List Char) : Prop := ∃ c ∈ l, pyIsSpace c = false

theorem hasNonWS_dropWhile {l : List Char} (h : HasNonWS l) :
    l.dropWhile pyIsSpace ≠ [] ∧ HasNonWS (l.dropWhile pyIsSpace) := by
  induction l with
  | nil => exact absurd h (by simp [HasNonWS])
  | cons c rest ih =>
    rw [List.dropWhile_cons]
    by_cases hw : pyIsSpace c = true
    · rw [if_pos hw]
      refine ih ?_
      obtain ⟨d, hd, hdw⟩ := h
      rcases List.mem_cons.1 hd with rfl | hd
      · rw [hw] at hdw
        cases hdw
      · exact ⟨d, hd, hdw⟩
    · rw [if_neg hw]
      exact ⟨by simp, ⟨c, List.mem_cons_self c rest, by simpa using hw⟩⟩

theorem hasNonWS_reverse {l : List Char} : HasNonWS l.reverse ↔ HasNonWS l := by
  unfold HasNonWS
  simp

theorem pyStrip_ne_nil_iff (l : List Char) : pyStrip l ≠ [] ↔ HasNonWS l := by
  constructor
  · intro h
    by_contra hn
    have hall : ∀ c ∈ l, pyIsSpace c = true := by
      intro c hc
      by_contra hw
      exact hn ⟨c, hc, by simpa using hw⟩
    have h1 : pyLStrip l = [] := List.dropWhile_eq_nil_iff.2 hall
    rw [pyStrip, h1] at h
    exact h rfl
  · intro h
    have h1 := hasNonWS_dropWhile h
    rw [pyStrip, pyRStrip]
    intro hc
    rw [List.reverse_eq_nil_iff] at hc
    have h2 := hasNonWS_dropWhile (hasNonWS_reverse.2 h1.2)
    exact h2.1 hc

theorem hasNonWS_pyStrip {l : List Char} (h : pyStrip l ≠ []) : HasNonWS (pyStrip l) := by
  rw [pyStrip, pyRStrip] at h ⊢
  rw [ne_eq, List.reverse_eq_nil_iff] at h
  cases hd : (pyLStrip l).reverse.dropWhile pyIsSpace with
  | nil => exact absurd hd h
  | cons c t =>
    have hw : pyIsSpace c = false := by
      have := List.head?_dropWhile_not pyIsSpace (pyLStrip l).reverse
      rw [hd] at this
      simpa using this
    refine ⟨c, ?_, hw⟩
    exact List.mem_reverse.2 (List.mem_cons_self c t)

theorem pyLStrip_length_le (l : List Char) : (pyLStrip l).length ≤ l.length :=
  (List.dropWhile_suffix pyIsSpace).sublist.length_le

theorem pyRStrip_length_le (l : List Char) : (pyRStrip l).length ≤ l.length := by
  rw [pyRStrip, List.length_reverse]
  exact le_trans (List.dropWhile_suffix pyIsSpace).sublist.length_le
    (le_of_eq (List.length_reverse l))

theorem pyRStrip_append_of_hasNonWS {a b : List Char} (h : HasNonWS b) :
    pyRStrip (a ++ b) = a ++ pyRStrip b := by
  rw [pyRStrip, pyRStrip, List.reverse_append, List.dropWhile_append]
  have hne : b.reverse.dropWhile pyIsSpace ≠ [] := (hasNonWS_dropWhile (hasNonWS_reverse.2 h)).1
  rw [if_neg (by simpa using hne)]
  rw [List.reverse_append, List.reverse_reverse]

theorem pyLStrip_append (a b : List Char) :
    pyLStrip (a ++ b) = if (pyLStrip a).isEmpty then pyLStrip b else pyLStrip a ++ b := by
  rw [pyLStrip, pyLStrip, pyLStrip, List.dropWhile_append]

theorem hasNonWS_pyRStrip {b : List Char} (h : HasNonWS b) : HasNonWS (pyRStrip b) := by
  rw [pyRStrip, hasNonWS_reverse]
  exact (hasNonWS_dropWhile (hasNonWS_reverse.2 h)).2

/-- Transport of a bounded non-blank core suffix through a final `strip()`. -/
theorem strip_core_transport {c core : List Char} {size : ℤ}
    (hsuf : core <:+ c) (hlen : (core.length : ℤ) ≤ size) (hne : pyStrip core ≠ []) :
    ∃ core2, core2 <:+ pyStrip c ∧ (core2.length : ℤ) ≤ size ∧ pyStrip core2 ≠ [] := by
  obtain ⟨a, rfl⟩ := hsuf
  have hnw : HasNonWS core := (pyStrip_ne_nil_iff core).1 hne
  rw [pyStrip, pyLStrip_append]
  by_cases hae : (pyLStrip a).isEmpty
  · rw [if_pos hae]
    refine ⟨pyRStrip (pyLStrip core), List.suffix_rfl, ?_, ?_⟩
    · calc ((pyRStrip (pyLStrip core)).length : ℤ)
          ≤ ((pyLStrip core).length : ℤ) := by exact_mod_cast pyRStrip_length_le _
        _ ≤ (core.length : ℤ) := by exact_mod_cast pyLStrip_length_le core
        _ ≤ size := hlen
    · show pyStrip (pyStrip core) ≠ []
      rw [pyStrip_ne_nil_iff]
      exact hasNonWS_pyStrip hne
  · rw [if_neg hae]
    have hrw : pyRStrip (pyLStrip a ++ core) = pyLStrip a ++ pyRStrip core :=
      pyRStrip_append_of_hasNonWS hnw
    rw [hrw]
    refine ⟨pyRStrip core, List.suffix_append _ _, ?_, ?_⟩
    · calc ((pyRStrip core).length : ℤ)
          ≤ (core.length : ℤ) := by exact_mod_cast pyRStrip_length_le core
        _ ≤ size := hlen
    · rw [pyStrip_ne_nil_iff]
      exact hasNonWS_pyRStrip hnw

/-- C5 counterexample: chunking the exact text "A. B. C." with maxSize 5,
overlap 0 and the recursive method yields the chunks "A. B" and "C.", and the
substring "B." appears in neither chunk: the ". " separator consumed by the
split is not restored when the greedy accumulator flushes between "A. B" and
"C.", so punctuation is lost at the chunk boundary and the claimed no-gaps
reconstruction fails. -/
theorem chunk_example_counterexample :
    chunk_text 5 0 100 "A. B. C.".data "recursive".data =
      some ["A. B".data, "C.".data] ∧
    containsSub "B.".data "A. B".data = false ∧
    containsSub "B.".data "C.".data = false := by decide

/-- C5 amended: the run yields more than one chunk; every chunk is already
trimmed, non-empty and at most 5 characters long; and the chunks contain
"A." and "C." in order — but the sentence "B." survives only as "B", its
trailing period dropped with the separator at the flush boundary. -/
theorem chunk_example_spec :
    chunk_text 5 0 100 "A. B. C.".data "recursive".data =
      some ["A. B".data, "C.".data] ∧
    1 < ["A. B".data, "C.".data].length ∧
    (∀ c ∈ ["A. B".data, "C.".data],
      pyStrip c = c ∧ c ≠ [] ∧ (c.length : ℤ) ≤ 5) ∧
    containsSub "A.".data "A. B".data = true ∧
    containsSub "C.".data "C.".data = true := by decide

/-- C6: the paragraph-preservation part of `_clean_text` never happens.  The
first substitution `re.sub(r'\s+', ' ', text)` already replaces every
whitespace run — newlines included — by a single space, so an input whose
paragraphs are separated by three newlines is flattened to a single line and
the cleaned text contains no "\n\n" at all; the second, paragraph-preserving
substitution (whose comment promises to keep paragraph breaks) is dead code. -/
theorem clean_text_paragraph_counterexample :
    clean_text "Line1\n\n\nLine2".data = "Line1 Line2".data ∧
    containsSub "\n\n".data (clean_text "Line1\n\n\nLine2".data) = false := by decide
